import Mathlib

/-!
Verification of the tree-traversal core of the scraper (`src/main.cpp`):
the text flattener `cleantext` (lines 6-21), the first-match locator
`search_for_table_body` (lines 23-37), and the locate-then-extract pipeline
of `main` (lines 53-73).  The Gumbo parse tree is embedded as an inductive
type; the two C++ recursions become mutual Lean recursions, with the
out-parameter `GumboNode** table_body` turned into explicit state passing
of an `Option GumboNode`.
-/

namespace Scraper

/-- Subset of Gumbo's tag enumeration that the program inspects by name:
`GUMBO_TAG_SCRIPT`, `GUMBO_TAG_STYLE`, `GUMBO_TAG_TBODY`; every other tag
value is represented by its numeric code. -/
inductive GumboTag where
  | script
  | style
  | tbody
  | other (code : Nat)
deriving DecidableEq

/-- Node of a Gumbo parse tree.  Text-like node kinds (`GUMBO_NODE_TEXT`,
`GUMBO_NODE_WHITESPACE`, `GUMBO_NODE_CDATA`, `GUMBO_NODE_COMMENT`) carry
literal character content and have no children; an element node
(`GUMBO_NODE_ELEMENT`) carries a tag and an ordered child list
(`v.element.children`, document order). -/
inductive GumboNode where
  | text (content : String)
  | whitespace (content : String)
  | cdata (content : String)
  | comment (content : String)
  | element (tag : GumboTag) (children : List GumboNode)

mutual

/-- Function `cleantext` of `src/main.cpp` lines 6-21: a `GUMBO_NODE_TEXT`
node returns its literal content; a `GUMBO_NODE_ELEMENT` node whose tag is
neither `GUMBO_TAG_SCRIPT` nor `GUMBO_TAG_STYLE` returns its child loop's
accumulated text; every other node returns the empty string. -/
def cleantext : GumboNode → String
  | .text s => s
  | .element tag children =>
      if tag ≠ GumboTag.script ∧ tag ≠ GumboTag.style then
        cleantextChildren "" children
      else ""
  | .whitespace _ => ""
  | .cdata _ => ""
  | .comment _ => ""

/-- Child loop of `cleantext` (lines 12-16): `contents` starts empty and the
cleaned text of each child is appended in document order
(`contents += cleantext(children->data[i])`). -/
def cleantextChildren : String → List GumboNode → String
  | contents, [] => contents
  | contents, c :: cs => cleantextChildren (contents ++ cleantext c) cs

end

mutual

/-- Function `search_for_table_body` of `src/main.cpp` lines 23-37, with the
out-parameter `GumboNode** table_body` made explicit: if a result is already
recorded, or the node is not a `GUMBO_NODE_ELEMENT`, return the state
unchanged; if the element's tag is `GUMBO_TAG_TBODY`, record the node;
otherwise walk the children in document order, threading the state. -/
def search_for_table_body (node : GumboNode) (table_body : Option GumboNode) :
    Option GumboNode :=
  match table_body with
  | some tb => some tb
  | none =>
    match node with
    | .element tag children =>
        if tag = GumboTag.tbody then some (.element tag children)
        else searchChildren children none
    | _ => none

/-- Child loop of `search_for_table_body` (lines 33-36): recurse into each
child in document order, with the shared `table_body` state threaded
through. -/
def searchChildren : List GumboNode → Option GumboNode → Option GumboNode
  | [], table_body => table_body
  | c :: cs, table_body => searchChildren cs (search_for_table_body c table_body)

end

/-- Outcome of the post-parse pipeline of `main` (lines 53-73): either the
table body was found and its cleaned text is produced (and written to the
output file), or no `tbody` exists and the program reports that the table
was not found, writing nothing. -/
inductive PipelineResult where
  | found (output : String)
  | notFound

/-- Locate-then-extract pipeline of `main` lines 53-73: start with
`table_body = nullptr`, run `search_for_table_body` from the root, then
either flatten the found subtree with `cleantext` or report absence. -/
def pipeline (root : GumboNode) : PipelineResult :=
  match search_for_table_body root none with
  | some table_body => PipelineResult.found (cleantext table_body)
  | none => PipelineResult.notFound

mutual

/-- Pre-order, depth-first listing of the nodes of a tree: a node comes
before its children, children in document order.  Only element nodes have
children. -/
def preorder : GumboNode → List GumboNode
  | .element tag children => .element tag children :: preorderList children
  | n => [n]

/-- Pre-order listing of a forest, in document order. -/
def preorderList : List GumboNode → List GumboNode
  | [] => []
  | c :: cs => preorder c ++ preorderList cs

end

/-- The predicate the locator tests: the node is an element whose tag is
`GUMBO_TAG_TBODY` (line 28 of `src/main.cpp`). -/
def isTbody : GumboNode → Bool
  | .element .tbody _ => true
  | _ => false

/-- Whether a node is a `GUMBO_NODE_ELEMENT`. -/
def isElement : GumboNode → Bool
  | .element _ _ => true
  | _ => false

mutual

/-- Ghost-instrumented copy of `search_for_table_body`: alongside the search
state it logs, in order, every node whose tag is examined against
`GUMBO_TAG_TBODY` (line 28).  Nodes at which the guard of line 24 returns
early — the state already holds a result, or the node is not an element —
are not logged.  Erasing the log yields `search_for_table_body` exactly. -/
def searchVisits (node : GumboNode) (acc : Option GumboNode × List GumboNode) :
    Option GumboNode × List GumboNode :=
  match acc with
  | (some tb, visited) => (some tb, visited)
  | (none, visited) =>
    match node with
    | .element tag children =>
        if tag = GumboTag.tbody then
          (some (.element tag children), visited ++ [.element tag children])
        else searchVisitsList children (none, visited ++ [.element tag children])
    | _ => (none, visited)

/-- Instrumented child loop of `search_for_table_body`. -/
def searchVisitsList :
    List GumboNode → Option GumboNode × List GumboNode →
    Option GumboNode × List GumboNode
  | [], acc => acc
  | c :: cs, acc => searchVisitsList cs (searchVisits c acc)

end

/-- Given a pre-order node listing, the nodes the locator examines: every
element node up to and including the first `tbody` element, after which
examination stops. -/
def visitedUpTo : List GumboNode → List GumboNode
  | [] => []
  | m :: ms =>
      if isTbody m then [m]
      else (if isElement m then [m] else []) ++ visitedUpTo ms

/-- One-hole tree context: a path of element ancestors around a hole, with
arbitrary sibling forests on either side at each level.  `Ctx.fill`
substitutes a node for the hole, producing the ancestor tree. -/
inductive Ctx where
  | hole
  | elem (tag : GumboTag) (before : List GumboNode) (inner : Ctx)
      (after : List GumboNode)

/-- Plug a node into the hole of a context. -/
def Ctx.fill : Ctx → GumboNode → GumboNode
  | .hole, n => n
  | .elem tag before inner after, n =>
      .element tag (before ++ inner.fill n :: after)

/-! Helper lemmas. -/

theorem strFoldl_shift (l : List String) :
    ∀ a : String, l.foldl (· ++ ·) a = a ++ l.foldl (· ++ ·) "" := by
  induction l with
  | nil => intro a; simp
  | cons s l ih =>
    intro a
    simp only [List.foldl_cons]
    rw [ih (a ++ s), ih ("" ++ s)]
    simp [String.append_assoc]

theorem strJoin_cons (s : String) (l : List String) :
    String.join (s :: l) = s ++ String.join l := by
  simp only [String.join, List.foldl_cons]
  rw [strFoldl_shift l ("" ++ s)]
  simp

theorem strJoin_append (l1 l2 : List String) :
    String.join (l1 ++ l2) = String.join l1 ++ String.join l2 := by
  induction l1 with
  | nil => simp [String.join]
  | cons s l ih => simp [strJoin_cons, ih, String.append_assoc]

theorem cleantextChildren_eq (l : List GumboNode) :
    ∀ acc : String, cleantextChildren acc l = acc ++ String.join (l.map cleantext) := by
  induction l with
  | nil => intro acc; simp [cleantextChildren, String.join]
  | cons c cs ih =>
    intro acc
    simp only [cleantextChildren, List.map_cons]
    rw [ih, strJoin_cons, String.append_assoc]

theorem search_found (n : GumboNode) (tb : GumboNode) :
    search_for_table_body n (some tb) = some tb := by
  cases n <;> rfl

theorem searchChildren_found (cs : List GumboNode) (tb : GumboNode) :
    searchChildren cs (some tb) = some tb := by
  induction cs with
  | nil => rfl
  | cons c cs ih => simp [searchChildren, search_found, ih]

mutual

theorem search_eq_find (n : GumboNode) :
    search_for_table_body n none = (preorder n).find? isTbody := by
  match n with
  | .element tag cs =>
    by_cases h : tag = GumboTag.tbody
    · subst h; simp [search_for_table_body, preorder, isTbody]
    · have hc := searchChildren_eq_find cs
      have htag : isTbody (.element tag cs) = false := by
        cases tag <;> simp_all [isTbody]
      simp [search_for_table_body, preorder, h, htag, hc]
  | .text s => simp [search_for_table_body, preorder, isTbody]
  | .whitespace s => simp [search_for_table_body, preorder, isTbody]
  | .cdata s => simp [search_for_table_body, preorder, isTbody]
  | .comment s => simp [search_for_table_body, preorder, isTbody]

theorem searchChildren_eq_find (cs : List GumboNode) :
    searchChildren cs none = (preorderList cs).find? isTbody := by
  match cs with
  | [] => simp [searchChildren, preorderList]
  | c :: cs' =>
    have h1 := search_eq_find c
    have h2 := searchChildren_eq_find cs'
    rw [searchChildren, preorderList, List.find?_append, ← h1, ← h2]
    cases hs : search_for_table_body c none with
    | none => simp [hs]
    | some tb => simp [hs, searchChildren_found]

end

theorem find?_none_of_all {l : List GumboNode}
    (h : ∀ m ∈ l, isTbody m = false) : l.find? isTbody = none := by
  rw [List.find?_eq_none]
  intro x hx
  simp [h x hx]

theorem find?_first {pre post : List GumboNode} {n : GumboNode}
    (hpre : ∀ m ∈ pre, isTbody m = false) (hn : isTbody n = true) :
    (pre ++ n :: post).find? isTbody = some n := by
  rw [List.find?_append, find?_none_of_all hpre]
  simp [List.find?_cons, hn]

theorem isElement_of_isTbody {n : GumboNode} (h : isTbody n = true) :
    isElement n = true := by
  cases n with
  | element tag cs => rfl
  | text s => simp [isTbody] at h
  | whitespace s => simp [isTbody] at h
  | cdata s => simp [isTbody] at h
  | comment s => simp [isTbody] at h

theorem visitedUpTo_append_found {l1 : List GumboNode} (l2 : List GumboNode)
    {m : GumboNode} (h : l1.find? isTbody = some m) :
    visitedUpTo (l1 ++ l2) = visitedUpTo l1 := by
  induction l1 with
  | nil => simp [List.find?] at h
  | cons x xs ih =>
    by_cases hx : isTbody x
    · simp [visitedUpTo, hx]
    · rw [List.find?_cons] at h
      simp only [hx, Bool.false_eq_true, if_neg] at h
      simp only [List.cons_append, visitedUpTo, hx, if_neg, Bool.false_eq_true,
        List.append_eq]
      rw [ih h]

theorem visitedUpTo_append_none {l1 : List GumboNode} (l2 : List GumboNode)
    (h : l1.find? isTbody = none) :
    visitedUpTo (l1 ++ l2) = l1.filter isElement ++ visitedUpTo l2 := by
  induction l1 with
  | nil => simp [visitedUpTo]
  | cons x xs ih =>
    rw [List.find?_cons] at h
    by_cases hx : isTbody x
    · simp [hx] at h
    · simp only [hx, Bool.false_eq_true, if_neg] at h
      simp only [List.cons_append, visitedUpTo, hx, if_neg, Bool.false_eq_true,
        List.filter_cons, List.append_eq]
      rw [ih h]
      by_cases he : isElement x <;> simp [he]

theorem visitedUpTo_first {pre post : List GumboNode} {n : GumboNode}
    (hpre : ∀ m ∈ pre, isTbody m = false) (hn : isTbody n = true) :
    visitedUpTo (pre ++ n :: post) = pre.filter isElement ++ [n] := by
  induction pre with
  | nil => simp [visitedUpTo, hn]
  | cons x xs ih =>
    have hx : isTbody x = false := hpre x (List.mem_cons_self x xs)
    simp only [List.cons_append, visitedUpTo, hx, Bool.false_eq_true, if_neg,
      List.filter_cons, List.append_eq]
    rw [ih (fun m hm => hpre m (List.mem_cons_of_mem x hm))]
    by_cases he : isElement x <;> simp [he]

theorem searchVisits_found (n : GumboNode) (tb : GumboNode)
    (vs : List GumboNode) : searchVisits n (some tb, vs) = (some tb, vs) := by
  cases n <;> rfl

theorem searchVisitsList_found (cs : List GumboNode) (tb : GumboNode)
    (vs : List GumboNode) : searchVisitsList cs (some tb, vs) = (some tb, vs) := by
  induction cs with
  | nil => rfl
  | cons c cs ih => simp [searchVisitsList, searchVisits_found, ih]

mutual

theorem searchVisits_eq (n : GumboNode) :
    ∀ vs : List GumboNode,
      searchVisits n (none, vs) =
        ((preorder n).find? isTbody, vs ++ visitedUpTo (preorder n)) := by
  match n with
  | .element tag cs =>
    intro vs
    by_cases h : tag = GumboTag.tbody
    · subst h
      simp [searchVisits, preorder, isTbody, visitedUpTo, List.find?_cons]
    · have hc := searchVisitsList_eq cs
      have htag : isTbody (.element tag cs) = false := by
        cases tag <;> simp_all [isTbody]
      have hel : isElement (.element tag cs) = true := rfl
      simp only [searchVisits, h, if_neg, preorder, List.find?_cons, htag,
        visitedUpTo, Bool.false_eq_true, hel, if_pos]
      rw [hc (vs ++ [GumboNode.element tag cs]), List.append_assoc]
      simp
  | .text s => intro vs; simp [searchVisits, preorder, isTbody, visitedUpTo, isElement]
  | .whitespace s => intro vs; simp [searchVisits, preorder, isTbody, visitedUpTo, isElement]
  | .cdata s => intro vs; simp [searchVisits, preorder, isTbody, visitedUpTo, isElement]
  | .comment s => intro vs; simp [searchVisits, preorder, isTbody, visitedUpTo, isElement]

theorem searchVisitsList_eq (cs : List GumboNode) :
    ∀ vs : List GumboNode,
      searchVisitsList cs (none, vs) =
        ((preorderList cs).find? isTbody, vs ++ visitedUpTo (preorderList cs)) := by
  match cs with
  | [] => intro vs; simp [searchVisitsList, preorderList, visitedUpTo]
  | c :: cs' =>
    intro vs
    have h1 := searchVisits_eq c
    have h2 := searchVisitsList_eq cs'
    rw [searchVisitsList, preorderList, h1 vs, List.find?_append]
    cases hs : (preorder c).find? isTbody with
    | some tb =>
      rw [searchVisitsList_found, visitedUpTo_append_found (preorderList cs') hs]
      simp
    | none =>
      rw [h2 (vs ++ visitedUpTo (preorder c)),
        visitedUpTo_append_none (preorderList cs') hs]
      have hfilter : visitedUpTo (preorder c) = (preorder c).filter isElement := by
        have := @visitedUpTo_append_none (preorder c) [] hs
        simpa [visitedUpTo] using this
      rw [hfilter, List.append_assoc]
      simp

end

/-! Claim theorems. -/

/-- Claim C1: an element whose tag is `GUMBO_TAG_SCRIPT` or `GUMBO_TAG_STYLE`
contributes the empty string to `cleantext`, and the `cleantext` of any
ancestor tree is independent of that element's descendants — so no
descendant text of an excluded element ever reaches the output. -/
theorem cleantext_excluded_independent_of_children (C : Ctx) (tag : GumboTag)
    (h : tag = GumboTag.script ∨ tag = GumboTag.style)
    (cs cs' : List GumboNode) :
    cleantext (GumboNode.element tag cs) = "" ∧
    cleantext (Ctx.fill C (GumboNode.element tag cs)) =
      cleantext (Ctx.fill C (GumboNode.element tag cs')) := by
  have hempty : ∀ ds : List GumboNode, cleantext (GumboNode.element tag ds) = "" := by
    intro ds
    rcases h with h | h <;> subst h <;> simp [cleantext]
  refine ⟨hempty cs, ?_⟩
  induction C with
  | hole => simp [Ctx.fill, hempty]
  | elem t b inner a ih =>
    by_cases ht : t ≠ GumboTag.script ∧ t ≠ GumboTag.style
    · simp only [Ctx.fill, cleantext, ht, if_pos, cleantextChildren_eq,
        List.map_append, List.map_cons, strJoin_append, strJoin_cons, ih]
    · simp [Ctx.fill, cleantext, ht]

/-- Witness for C1: the script element's text `alert(1)` does not survive
into the ancestor's extraction, which is unchanged when the script's
children are deleted. -/
theorem cleantext_excluded_independent_of_children_witness :
    (GumboTag.script = GumboTag.script ∨ GumboTag.script = GumboTag.style) ∧
    (cleantext (GumboNode.element GumboTag.script [GumboNode.text "alert(1)"]) = "" ∧
     cleantext (Ctx.fill
         (Ctx.elem (GumboTag.other 0) [GumboNode.text "A"] Ctx.hole [GumboNode.text "B"])
         (GumboNode.element GumboTag.script [GumboNode.text "alert(1)"])) =
       cleantext (Ctx.fill
         (Ctx.elem (GumboTag.other 0) [GumboNode.text "A"] Ctx.hole [GumboNode.text "B"])
         (GumboNode.element GumboTag.script []))) :=
  ⟨Or.inl rfl,
   cleantext_excluded_independent_of_children _ _ (Or.inl rfl) _ _⟩

/-- Claim C2: whenever some node of the tree satisfies the `tbody` predicate,
`search_for_table_body` started with an empty state returns the predicate's
earliest hit in pre-order depth-first order, and re-running it on the same
tree returns the same node. -/
theorem search_returns_first_preorder_match (t : GumboNode)
    (h : ∃ n ∈ preorder t, isTbody n = true) :
    ∃ pre n post,
      preorder t = pre ++ n :: post ∧ isTbody n = true ∧
      (∀ m ∈ pre, isTbody m = false) ∧
      search_for_table_body t none = some n ∧
      search_for_table_body t none = search_for_table_body t none := by
  have hsome : ((preorder t).find? isTbody).isSome = true := List.find?_isSome.mpr h
  obtain ⟨n, hn0⟩ := Option.isSome_iff_exists.mp hsome
  have hn := hn0
  rw [List.find?_eq_some] at hn
  obtain ⟨hpn, pre, post, hsplit, hall⟩ := hn
  exact ⟨pre, n, post, hsplit, hpn, fun m hm => by simpa using hall m hm,
    by rw [search_eq_find]; exact hn0, rfl⟩

/-- Witness for C2: with two `tbody` elements in the tree, the search returns
a first-match decomposition of the pre-order listing. -/
theorem search_returns_first_preorder_match_witness :
    (∃ n ∈ preorder (GumboNode.element (GumboTag.other 0)
        [GumboNode.element GumboTag.tbody [GumboNode.text "x"],
         GumboNode.element GumboTag.tbody []]), isTbody n = true) ∧
    (∃ pre n post,
      preorder (GumboNode.element (GumboTag.other 0)
        [GumboNode.element GumboTag.tbody [GumboNode.text "x"],
         GumboNode.element GumboTag.tbody []]) = pre ++ n :: post ∧
      isTbody n = true ∧
      (∀ m ∈ pre, isTbody m = false) ∧
      search_for_table_body (GumboNode.element (GumboTag.other 0)
        [GumboNode.element GumboTag.tbody [GumboNode.text "x"],
         GumboNode.element GumboTag.tbody []]) none = some n ∧
      search_for_table_body (GumboNode.element (GumboTag.other 0)
        [GumboNode.element GumboTag.tbody [GumboNode.text "x"],
         GumboNode.element GumboTag.tbody []]) none =
        search_for_table_body (GumboNode.element (GumboTag.other 0)
        [GumboNode.element GumboTag.tbody [GumboNode.text "x"],
         GumboNode.element GumboTag.tbody []]) none) :=
  ⟨⟨GumboNode.element GumboTag.tbody [GumboNode.text "x"],
    by simp [preorder, preorderList], rfl⟩,
   search_returns_first_preorder_match _
    ⟨GumboNode.element GumboTag.tbody [GumboNode.text "x"],
     by simp [preorder, preorderList], rfl⟩⟩

/-- Claim C3: for an element whose tag is neither `GUMBO_TAG_SCRIPT` nor
`GUMBO_TAG_STYLE`, `cleantext` is exactly the concatenation of the
`cleantext` of its children, in child document order, with no separator. -/
theorem cleantext_concat_children_in_order (tag : GumboTag) (cs : List GumboNode)
    (h1 : tag ≠ GumboTag.script) (h2 : tag ≠ GumboTag.style) :
    cleantext (GumboNode.element tag cs) = String.join (cs.map cleantext) := by
  simp [cleantext, h1, h2, cleantextChildren_eq]

/-- Witness for C3 at a two-child element with an ordinary tag. -/
theorem cleantext_concat_children_in_order_witness :
    (GumboTag.other 0 ≠ GumboTag.script) ∧ (GumboTag.other 0 ≠ GumboTag.style) ∧
    cleantext (GumboNode.element (GumboTag.other 0)
        [GumboNode.text "a", GumboNode.text "b"]) =
      String.join ([GumboNode.text "a", GumboNode.text "b"].map cleantext) :=
  ⟨by decide, by decide,
   cleantext_concat_children_in_order _ _ (by decide) (by decide)⟩

/-- Claim C4: when no node of the tree satisfies the `tbody` predicate,
`search_for_table_body` returns `none`, and the pipeline produces the
distinct `notFound` outcome (writing nothing), never the empty-string
success `found ""`. -/
theorem search_absent_pipeline_notFound (t : GumboNode)
    (h : ∀ n ∈ preorder t, isTbody n = false) :
    search_for_table_body t none = none ∧
    pipeline t = PipelineResult.notFound ∧
    pipeline t ≠ PipelineResult.found "" := by
  have hs : search_for_table_body t none = none := by
    rw [search_eq_find]; exact find?_none_of_all h
  refine ⟨hs, ?_, ?_⟩
  · simp [pipeline, hs]
  · simp [pipeline, hs]

/-- Witness for C4 at a tree with no `tbody` element. -/
theorem search_absent_pipeline_notFound_witness :
    (∀ n ∈ preorder (GumboNode.element (GumboTag.other 7) [GumboNode.text "hi"]),
      isTbody n = false) ∧
    (search_for_table_body
        (GumboNode.element (GumboTag.other 7) [GumboNode.text "hi"]) none = none ∧
     pipeline (GumboNode.element (GumboTag.other 7) [GumboNode.text "hi"]) =
        PipelineResult.notFound ∧
     pipeline (GumboNode.element (GumboTag.other 7) [GumboNode.text "hi"]) ≠
        PipelineResult.found "") :=
  ⟨by decide, search_absent_pipeline_notFound _ (by decide)⟩

/-- Claim C5 (counterexample): on a node of an unhandled kind the core does
not raise any fault — `cleantext` silently returns the empty string, a
normal return value, contradicting the claim that an unrecognized internal
state fails loudly rather than being suppressed. -/
theorem cleantext_unhandled_kind_returns_normally :
    cleantext (GumboNode.comment "unrecognized state") = "" := rfl

/-- Claim C5 (amended): for every node whose kind falls outside the cases
the predicate/exclusion logic handles by name (text and element), `cleantext`
silently absorbs the node, returning the empty string without recursing and
without raising any fault. -/
theorem cleantext_silent_empty_on_unhandled (n : GumboNode)
    (h1 : ∀ s, n ≠ GumboNode.text s)
    (h2 : ∀ tag cs, n ≠ GumboNode.element tag cs) :
    cleantext n = "" := by
  cases n with
  | text s => exact absurd rfl (h1 s)
  | element tag cs => exact absurd rfl (h2 tag cs)
  | whitespace s => rfl
  | cdata s => rfl
  | comment s => rfl

/-- Witness for the amended C5 at a CDATA node. -/
theorem cleantext_silent_empty_on_unhandled_witness :
    (∀ s, GumboNode.cdata "data" ≠ GumboNode.text s) ∧
    (∀ tag cs, GumboNode.cdata "data" ≠ GumboNode.element tag cs) ∧
    cleantext (GumboNode.cdata "data") = "" :=
  ⟨fun _ h => GumboNode.noConfusion h,
   fun _ _ h => GumboNode.noConfusion h,
   cleantext_silent_empty_on_unhandled _ (fun _ h => GumboNode.noConfusion h)
     (fun _ _ h => GumboNode.noConfusion h)⟩

/-- Claim C6: in a full run of the (ghost-instrumented) search on a tree
whose earliest pre-order `tbody` hit is `n`, the nodes examined are exactly
the element nodes strictly before `n` in pre-order followed by `n` itself:
nothing after the match point — neither later siblings nor their
descendants — is ever examined, and the result is `n`. -/
theorem search_no_visits_after_match (t : GumboNode) (pre post : List GumboNode)
    (n : GumboNode) (hsplit : preorder t = pre ++ n :: post)
    (hn : isTbody n = true) (hpre : ∀ m ∈ pre, isTbody m = false) :
    searchVisits t (none, []) = (some n, pre.filter isElement ++ [n]) ∧
    search_for_table_body t none = some n := by
  have hfind : (preorder t).find? isTbody = some n := by
    rw [hsplit]; exact find?_first hpre hn
  constructor
  · rw [searchVisits_eq t [], hfind, hsplit, visitedUpTo_first hpre hn]
    simp
  · rw [search_eq_find]; exact hfind

/-- Witness for C6: with a sibling after the `tbody`, the visit log stops at
the `tbody` and the sibling is never examined. -/
theorem search_no_visits_after_match_witness :
    (preorder (GumboNode.element (GumboTag.other 0)
        [GumboNode.element GumboTag.tbody [],
         GumboNode.element (GumboTag.other 1) []]) =
      [GumboNode.element (GumboTag.other 0)
        [GumboNode.element GumboTag.tbody [],
         GumboNode.element (GumboTag.other 1) []]] ++
        GumboNode.element GumboTag.tbody [] ::
        [GumboNode.element (GumboTag.other 1) []]) ∧
    (isTbody (GumboNode.element GumboTag.tbody []) = true) ∧
    (∀ m ∈ [GumboNode.element (GumboTag.other 0)
        [GumboNode.element GumboTag.tbody [],
         GumboNode.element (GumboTag.other 1) []]], isTbody m = false) ∧
    (searchVisits (GumboNode.element (GumboTag.other 0)
        [GumboNode.element GumboTag.tbody [],
         GumboNode.element (GumboTag.other 1) []]) (none, []) =
      (some (GumboNode.element GumboTag.tbody []),
       ([GumboNode.element (GumboTag.other 0)
          [GumboNode.element GumboTag.tbody [],
           GumboNode.element (GumboTag.other 1) []]].filter isElement) ++
         [GumboNode.element GumboTag.tbody []]) ∧
     search_for_table_body (GumboNode.element (GumboTag.other 0)
        [GumboNode.element GumboTag.tbody [],
         GumboNode.element (GumboTag.other 1) []]) none =
       some (GumboNode.element GumboTag.tbody [])) :=
  ⟨rfl, rfl, by decide,
   search_no_visits_after_match _ _ _ _ rfl rfl (by decide)⟩

/-- Claim C7: on a text node, `cleantext` returns the literal content
verbatim, with no trimming or normalization. -/
theorem cleantext_text_verbatim (s : String) :
    cleantext (GumboNode.text s) = s := rfl

/-- Claim C8: `cleantext` (and the whole locate-then-extract pipeline) is a
pure function of the tree value: two runs on the same tree yield identical
output. -/
theorem cleantext_deterministic (t1 t2 : GumboNode) (h : t1 = t2) :
    cleantext t1 = cleantext t2 ∧ pipeline t1 = pipeline t2 := by
  subst h
  exact ⟨rfl, rfl⟩

/-- Witness for C8 at a concrete tree. -/
theorem cleantext_deterministic_witness :
    (GumboNode.element GumboTag.tbody [GumboNode.text "row"] =
      GumboNode.element GumboTag.tbody [GumboNode.text "row"]) ∧
    (cleantext (GumboNode.element GumboTag.tbody [GumboNode.text "row"]) =
       cleantext (GumboNode.element GumboTag.tbody [GumboNode.text "row"]) ∧
     pipeline (GumboNode.element GumboTag.tbody [GumboNode.text "row"]) =
       pipeline (GumboNode.element GumboTag.tbody [GumboNode.text "row"])) :=
  ⟨rfl, cleantext_deterministic _ _ rfl⟩

/-- Claim C9: node kinds that are neither text nor element — in particular
whitespace and CDATA nodes, though they carry literal content — contribute
the empty string to `cleantext`, so parser-classified inter-element
whitespace never appears in the output: deleting a whitespace child leaves
an element's extraction unchanged. -/
theorem cleantext_whitespace_cdata_empty (s : String) (tag : GumboTag)
    (cs1 cs2 : List GumboNode)
    (h1 : tag ≠ GumboTag.script) (h2 : tag ≠ GumboTag.style) :
    cleantext (GumboNode.whitespace s) = "" ∧
    cleantext (GumboNode.cdata s) = "" ∧
    cleantext (GumboNode.element tag (cs1 ++ GumboNode.whitespace s :: cs2)) =
      cleantext (GumboNode.element tag (cs1 ++ cs2)) := by
  refine ⟨rfl, rfl, ?_⟩
  simp [cleantext, h1, h2, cleantextChildren_eq, List.map_append, strJoin_append,
    strJoin_cons]

/-- Witness for C9: an inter-element whitespace node vanishes from output. -/
theorem cleantext_whitespace_cdata_empty_witness :
    (GumboTag.other 3 ≠ GumboTag.script) ∧ (GumboTag.other 3 ≠ GumboTag.style) ∧
    (cleantext (GumboNode.whitespace "\n  ") = "" ∧
     cleantext (GumboNode.cdata "\n  ") = "" ∧
     cleantext (GumboNode.element (GumboTag.other 3)
        ([GumboNode.text "a"] ++ GumboNode.whitespace "\n  " :: [GumboNode.text "b"])) =
       cleantext (GumboNode.element (GumboTag.other 3)
        ([GumboNode.text "a"] ++ [GumboNode.text "b"]))) :=
  ⟨by decide, by decide,
   cleantext_whitespace_cdata_empty _ _ _ _ (by decide) (by decide)⟩

/-- Claim C10: the script/style exclusion applies only to flattening, not to
locating — when the tree's earliest pre-order `tbody` hit `n` lies inside
the subtree of a script- or style-tagged element, `search_for_table_body`
still recurses into that excluded subtree and returns `n`, even though
`cleantext` of the same excluded element is empty. -/
theorem search_recurses_into_excluded_subtree (C : Ctx) (tag : GumboTag)
    (h : tag = GumboTag.script ∨ tag = GumboTag.style)
    (cs : List GumboNode) (n : GumboNode)
    (_hmem : n ∈ preorderList cs)
    (hf : (preorder (Ctx.fill C (GumboNode.element tag cs))).find? isTbody = some n) :
    search_for_table_body (Ctx.fill C (GumboNode.element tag cs)) none = some n ∧
    cleantext (GumboNode.element tag cs) = "" := by
  refine ⟨?_, ?_⟩
  · rw [search_eq_find]; exact hf
  · rcases h with h | h <;> subst h <;> simp [cleantext]

/-- Witness for C10: a `tbody` nested directly under a script element is
still located, while the script element flattens to the empty string. -/
theorem search_recurses_into_excluded_subtree_witness :
    (GumboTag.script = GumboTag.script ∨ GumboTag.script = GumboTag.style) ∧
    (GumboNode.element GumboTag.tbody [] ∈
      preorderList [GumboNode.element GumboTag.tbody []]) ∧
    ((preorder (Ctx.fill Ctx.hole
        (GumboNode.element GumboTag.script
          [GumboNode.element GumboTag.tbody []]))).find? isTbody =
      some (GumboNode.element GumboTag.tbody [])) ∧
    (search_for_table_body (Ctx.fill Ctx.hole
        (GumboNode.element GumboTag.script
          [GumboNode.element GumboTag.tbody []])) none =
      some (GumboNode.element GumboTag.tbody []) ∧
     cleantext (GumboNode.element GumboTag.script
        [GumboNode.element GumboTag.tbody []]) = "") :=
  ⟨Or.inl rfl, by simp [preorderList, preorder], rfl,
   search_recurses_into_excluded_subtree _ _ (Or.inl rfl) _ _
     (by simp [preorderList, preorder]) rfl⟩

end Scraper
